import Mathlib

/-
  Verification development for the TrendSpotter frontend services.

  Shallow embedding of `frontend/src/services/ab-testing.ts`,
  `frontend/src/services/api.ts` and `frontend/src/services/interactions.ts`.

  The TypeScript `ABTestingService` is a small state machine: a `Map` of
  assigned variants, a `Map` of per-test metrics, and `localStorage`
  persistence.  JS `Map`s are modelled as association lists (insertion
  order preserved, `set` replaces in place or appends), `Math.random()`
  as an explicit draw function `TestName → ℚ`, and `localStorage` as the
  `storage` field of the state.  Numbers are exact rationals `ℚ`.
-/

set_option maxHeartbeats 1000000

namespace TrendSpotter

/-- Test names are plain strings in the TypeScript `enum TestName`. -/
abbrev TestName := String

def TestName.RECOMMENDATION_EXPLANATION : TestName := "recommendation_explanation"

def TestName.HOMEPAGE_LAYOUT : TestName := "homepage_layout"

def TestName.SEARCH_INTERFACE : TestName := "search_interface"

def TestName.LOCATION_PRIORITY : TestName := "location_priority"

/-- `interface Test` from ab-testing.ts. -/
structure Test where
  name : TestName
  enabled : Bool
  variants : List String
  distribution : Option (List ℚ) := none
deriving DecidableEq

/-- `interface TestMetrics` from ab-testing.ts. -/
structure TestMetrics where
  variant : String
  impressions : ℕ
  conversions : ℕ
  conversionRate : ℚ
deriving DecidableEq

/-- The configured test list `AVAILABLE_TESTS` from ab-testing.ts. -/
def AVAILABLE_TESTS : List Test :=
  [ { name := TestName.RECOMMENDATION_EXPLANATION, enabled := true,
      variants := ["A", "B"] },
    { name := TestName.HOMEPAGE_LAYOUT, enabled := false,
      variants := ["Standard", "LocationFirst", "PersonalizedFirst"],
      distribution := some [0.4, 0.3, 0.3] },
    { name := TestName.SEARCH_INTERFACE, enabled := true,
      variants := ["Basic", "Advanced"] },
    { name := TestName.LOCATION_PRIORITY, enabled := true,
      variants := ["Global", "Local"] } ]

/-- `Map.get`: first entry with the given key, if any. -/
def mapFind {κ α : Type} [DecidableEq κ] : List (κ × α) → κ → Option α
  | [], _ => none
  | (k, v) :: rest, key => if k = key then some v else mapFind rest key

/-- `Map.set`: replace the entry in place, or append a fresh one. -/
def mapSet {κ α : Type} [DecidableEq κ] : List (κ × α) → κ → α → List (κ × α)
  | [], key, val => [(key, val)]
  | (k, v) :: rest, key, val =>
      if k = key then (key, val) :: rest else (k, v) :: mapSet rest key val

/-- The state of the `ABTestingService` singleton:
`assignedVariants`, `testMetrics`, and the `localStorage` slot under
`VARIANT_STORAGE_KEY`. -/
structure ABState where
  assignedVariants : List (TestName × String)
  testMetrics : List (TestName × TestMetrics)
  storage : List (TestName × String)
deriving DecidableEq

/-- `AVAILABLE_TESTS.find(t => t.name === testName)`. -/
def findTest (testName : TestName) : Option Test :=
  AVAILABLE_TESTS.find? (fun t => t.name == testName)

/-- A test name is enabled when it is configured and its `enabled` flag holds. -/
def testEnabled (testName : TestName) : Bool :=
  match findTest testName with
  | some t => t.enabled
  | none => false

/-- The cumulative-weight loop body of `assignMissingVariants`:
`cumulativeWeight += distribution[i]; if (random <= cumulativeWeight) break`.
Running past the end of the weights models the JS `NaN` comparison always
failing (the loop ends with no variant picked). -/
def walkWeights : List String → List ℚ → ℚ → ℚ → Option String
  | [], _, _, _ => none
  | _ :: _, [], _, _ => none
  | v :: vs, w :: ws, r, cum =>
      if r ≤ cum + w then some v else walkWeights vs ws r (cum + w)

/-- Weighted branch of `assignMissingVariants`: cumulative walk, then
`if (!variant) variant = variants[variants.length - 1]` (the empty string is
falsy in JS). -/
def chooseByDistribution (variants : List String) (dist : List ℚ) (r : ℚ) : String :=
  match walkWeights variants dist r 0 with
  | some v => if v = "" then variants.getLastD "" else v
  | none => variants.getLastD ""

/-- Unweighted branch: `variants[Math.floor(Math.random() * variants.length)]`. -/
def chooseUniform (variants : List String) (r : ℚ) : String :=
  variants.getD (Int.toNat (Rat.floor (r * (variants.length : ℚ)))) ""

/-- One iteration of the `AVAILABLE_TESTS.forEach` loop in
`assignMissingVariants`: skip disabled tests and tests that already have an
assignment, otherwise draw, pick a variant, record it and initialise its
metrics to zero. -/
def assignOne (draws : TestName → ℚ) (s : ABState) (test : Test) : ABState :=
  if !test.enabled then s
  else if (mapFind s.assignedVariants test.name).isSome then s
  else
    let r := draws test.name
    let variant : String :=
      match test.distribution with
      | some dist => chooseByDistribution test.variants dist r
      | none => chooseUniform test.variants r
    { s with
      assignedVariants := mapSet s.assignedVariants test.name variant,
      testMetrics := mapSet s.testMetrics test.name ⟨variant, 0, 0, 0⟩ }

/-- `saveAssignedVariants`: serialise the assignment map into `localStorage`. -/
def saveAssignedVariants (s : ABState) : ABState :=
  { s with storage := s.assignedVariants }

/-- `assignMissingVariants`: the `forEach` loop over the configured tests
followed by the final `saveAssignedVariants()` call. -/
def assignMissingVariants (tests : List Test) (draws : TestName → ℚ)
    (s : ABState) : ABState :=
  saveAssignedVariants (tests.foldl (assignOne draws) s)

/-- `loadAssignedVariants`: replay every stored `(testName, variant)` entry
into the assignment map. -/
def loadAssignedVariants (stored : List (TestName × String)) (s : ABState) : ABState :=
  { s with assignedVariants := stored.foldl (fun m p => mapSet m p.1 p.2) s.assignedVariants }

/-- The `ABTestingService` constructor: start from empty maps and the given
`localStorage` content, load persisted variants, then assign the missing
ones (which persists the result). -/
def newService (stored : List (TestName × String)) (draws : TestName → ℚ) : ABState :=
  assignMissingVariants AVAILABLE_TESTS draws
    (loadAssignedVariants stored
      { assignedVariants := [], testMetrics := [], storage := stored })

/-- `getVariant`: null for unknown or disabled tests, otherwise
`assignedVariants.get(testName) || null` (the empty string is falsy). -/
def getVariant (s : ABState) (testName : TestName) : Option String :=
  match findTest testName with
  | none => none
  | some test =>
      if !test.enabled then none
      else
        match mapFind s.assignedVariants testName with
        | none => none
        | some v => if v = "" then none else some v

/-- `trackImpression`: early return for unknown, disabled or metrics-less
tests; otherwise increment `impressions` and, when `impressions > 0`,
recompute `conversionRate = conversions / impressions * 100`. -/
def trackImpression (s : ABState) (testName : TestName) : ABState :=
  match findTest testName with
  | none => s
  | some test =>
      if !test.enabled then s
      else
        match mapFind s.testMetrics testName with
        | none => s
        | some metrics =>
            let m1 : TestMetrics := { metrics with impressions := metrics.impressions + 1 }
            let m2 : TestMetrics :=
              if 0 < m1.impressions then
                { m1 with conversionRate := (m1.conversions : ℚ) / (m1.impressions : ℚ) * 100 }
              else m1
            { s with testMetrics := mapSet s.testMetrics testName m2 }

/-- `trackConversion`: early return for unknown, disabled or metrics-less
tests; otherwise increment `conversions` and, only when `impressions > 0`,
recompute `conversionRate`. -/
def trackConversion (s : ABState) (testName : TestName) : ABState :=
  match findTest testName with
  | none => s
  | some test =>
      if !test.enabled then s
      else
        match mapFind s.testMetrics testName with
        | none => s
        | some metrics =>
            let m1 : TestMetrics := { metrics with conversions := metrics.conversions + 1 }
            let m2 : TestMetrics :=
              if 0 < m1.impressions then
                { m1 with conversionRate := (m1.conversions : ℚ) / (m1.impressions : ℚ) * 100 }
              else m1
            { s with testMetrics := mapSet s.testMetrics testName m2 }

/-- `getMetrics`: `testMetrics.get(testName) || null` (objects are truthy). -/
def getMetrics (s : ABState) (testName : TestName) : Option TestMetrics :=
  mapFind s.testMetrics testName

/-- A tracking call observable after construction. -/
inductive Event
  | impression (t : TestName)
  | conversion (t : TestName)
deriving DecidableEq

def stepEvent (s : ABState) : Event → ABState
  | Event.impression t => trackImpression s t
  | Event.conversion t => trackConversion s t

def runEvents (s : ABState) (es : List Event) : ABState :=
  es.foldl stepEvent s

/-- States the singleton can be in: constructed from some persisted storage
and random draws, then any sequence of tracking calls. -/
def Reachable (s : ABState) : Prop :=
  ∃ stored draws es, s = runEvents (newService stored draws) es

/-- Number of `trackImpression` calls for `t` in a call sequence. -/
def countImp (t : TestName) : List Event → ℕ
  | [] => 0
  | Event.impression t' :: es => (if t' = t then 1 else 0) + countImp t es
  | Event.conversion _ :: es => countImp t es

/-- Number of `trackConversion` calls for `t` in a call sequence. -/
def countConv (t : TestName) : List Event → ℕ
  | [] => 0
  | Event.conversion t' :: es => (if t' = t then 1 else 0) + countConv t es
  | Event.impression _ :: es => countConv t es

/-- A fixed random source used for concrete witnesses. -/
def draws0 : TestName → ℚ := fun _ => 1 / 2

/-- `getCurrentSeason` from api.ts, as a function of the 1-indexed month. -/
def getCurrentSeason (month : ℕ) : String :=
  if 3 ≤ month ∧ month ≤ 5 then "spring"
  else if 6 ≤ month ∧ month ≤ 8 then "summer"
  else if 9 ≤ month ∧ month ≤ 11 then "fall"
  else "winter"

/-- The four values of the TypeScript union `InteractionType`. -/
inductive InteractionType
  | view
  | save
  | click
  | share
deriving DecidableEq

def InteractionType.toText : InteractionType → String
  | view => "view"
  | save => "save"
  | click => "click"
  | share => "share"

/-- The body posted to `/interactions` by `api.logInteraction`. -/
structure InteractionRequest where
  user_id : String
  content_id : String
  interaction_type : String
deriving DecidableEq

/-- The `trendspotter_saved_items` record in `localStorage`. -/
abbrev SavedStore := List (String × List String)

/-- `api.logInteraction`: post the interaction; on success return the
response data, on failure log and return `undefined` without rethrowing.
The HTTP layer is the `post` parameter; `Except.error` on the result type
would mean the promise rejects for the caller, which never happens. -/
def apiLogInteraction (post : InteractionRequest → Except String String)
    (userId contentId : String) (ty : InteractionType) :
    Except String (Option String) :=
  match post ⟨userId, contentId, ty.toText⟩ with
  | Except.ok d => Except.ok (some d)
  | Except.error _ => Except.ok none

/-- `interactionService.saveItem`: add the content id to the user's saved
list unless it is already there (its own try/catch means it never throws). -/
def saveItem (store : SavedStore) (userId contentId : String) : SavedStore :=
  let userItems := (mapFind store userId).getD []
  if contentId ∈ userItems then store
  else mapSet store userId (userItems ++ [contentId])

/-- `interactionService.logInteraction`: await the API call; if it rejects,
catch and return false; otherwise record a save when applicable and return
true. -/
def serviceLogInteraction (post : InteractionRequest → Except String String)
    (store : SavedStore) (userId contentId : String) (ty : InteractionType) :
    Except String Bool × SavedStore :=
  match apiLogInteraction post userId contentId ty with
  | Except.error _ => (Except.ok false, store)
  | Except.ok _ =>
      let store' := if ty = InteractionType.save then saveItem store userId contentId else store
      (Except.ok true, store')

/-- A post that always fails, for concrete counterexamples. -/
def failPost : InteractionRequest → Except String String :=
  fun _ => Except.error "Network Error"

/-- Spec-side notion: the cumulative weight of variant `i` is the sum of the
first `i + 1` weights. -/
def cumulativeWeight (dist : List ℚ) (i : ℕ) : ℚ :=
  (dist.take (i + 1)).sum

/-- Spec-side selection, following the spec's words: walk cumulative
weights and pick the first variant whose cumulative weight is `≥ r`. -/
def specFirstCumGe (variants : List String) (dist : List ℚ) (r : ℚ) :
    Option String :=
  ((List.range variants.length).find? fun i => decide (r ≤ cumulativeWeight dist i)).map
    (fun i => variants.getD i "")

/-- A hypothetical enabled copy of the homepage-layout test, used to
exercise the weighted branch on concrete inputs. -/
def homepageEnabled : Test :=
  { name := TestName.HOMEPAGE_LAYOUT, enabled := true,
    variants := ["Standard", "LocationFirst", "PersonalizedFirst"],
    distribution := some [4 / 10, 3 / 10, 3 / 10] }

/-- The empty service state, before the constructor runs. -/
def emptyState : ABState :=
  { assignedVariants := [], testMetrics := [], storage := [] }

/-- The conversion-rate invariant actually maintained by the code: the
stored `conversionRate` equals `conversions / impressions * 100` whenever
`impressions > 0`, and stays at its initial 0 while `impressions = 0`. -/
def MetricsRateInv (s : ABState) : Prop :=
  ∀ t m, mapFind s.testMetrics t = some m →
    m.conversionRate =
      if 0 < m.impressions then (m.conversions : ℚ) / (m.impressions : ℚ) * 100 else 0

/- ### Association-list lemmas -/

theorem mapFind_mapSet_self {κ α : Type} [DecidableEq κ]
    (m : List (κ × α)) (k : κ) (v : α) :
    mapFind (mapSet m k v) k = some v := by
  induction m with
  | nil => simp [mapSet, mapFind]
  | cons p rest ih =>
      obtain ⟨k', v'⟩ := p
      by_cases h : k' = k <;> simp [mapSet, mapFind, h, ih]

theorem mapFind_mapSet_ne {κ α : Type} [DecidableEq κ]
    (m : List (κ × α)) (k k' : κ) (v : α) (h : k' ≠ k) :
    mapFind (mapSet m k v) k' = mapFind m k' := by
  induction m with
  | nil => simp [mapSet, mapFind, Ne.symm h]
  | cons p rest ih =>
      obtain ⟨a, b⟩ := p
      by_cases ha : a = k
      · subst ha
        simp [mapSet, mapFind, Ne.symm h]
      · by_cases ha' : a = k' <;> simp [mapSet, mapFind, ha, ha', h, ih]

/-- Concrete evaluation of the constructor on empty storage with the fixed
draw 1/2: the three enabled tests get variants B, Advanced and Local, fresh
zero metrics, and the assignments are persisted.  (Rational arithmetic is
opaque to kernel reduction, so this is established once by `simp` and
reused by the concrete witnesses.) -/
theorem newService_eval :
    newService [] draws0 =
      { assignedVariants := [(TestName.RECOMMENDATION_EXPLANATION, "B"),
          (TestName.SEARCH_INTERFACE, "Advanced"),
          (TestName.LOCATION_PRIORITY, "Local")],
        testMetrics := [(TestName.RECOMMENDATION_EXPLANATION, ⟨"B", 0, 0, 0⟩),
          (TestName.SEARCH_INTERFACE, ⟨"Advanced", 0, 0, 0⟩),
          (TestName.LOCATION_PRIORITY, ⟨"Local", 0, 0, 0⟩)],
        storage := [(TestName.RECOMMENDATION_EXPLANATION, "B"),
          (TestName.SEARCH_INTERFACE, "Advanced"),
          (TestName.LOCATION_PRIORITY, "Local")] } := by
  simp [newService, assignMissingVariants, loadAssignedVariants, saveAssignedVariants,
    AVAILABLE_TESTS, assignOne, mapFind, mapSet, chooseUniform, draws0,
    TestName.RECOMMENDATION_EXPLANATION, TestName.HOMEPAGE_LAYOUT,
    TestName.SEARCH_INTERFACE, TestName.LOCATION_PRIORITY, Rat.floor_def']

/- ### Disabled / unknown tests -/

/-- Shared helper: a disabled or unconfigured test name makes `getVariant`
return null and both tracking calls leave the state untouched. -/
theorem disabled_noop (s : ABState) (t : TestName) (h : testEnabled t = false) :
    getVariant s t = none ∧ trackImpression s t = s ∧ trackConversion s t = s := by
  cases hf : findTest t with
  | none => simp [getVariant, trackImpression, trackConversion, hf]
  | some test =>
      simp only [testEnabled, hf] at h
      simp [getVariant, trackImpression, trackConversion, hf, h]

/- ### Computation lemmas for the tracking calls -/

theorem trackImpression_no_metrics (s : ABState) (t : TestName)
    (hm : mapFind s.testMetrics t = none) : trackImpression s t = s := by
  cases hf : findTest t with
  | none => simp [trackImpression, hf]
  | some test => cases he : test.enabled <;> simp [trackImpression, hf, he, hm]

theorem trackConversion_no_metrics (s : ABState) (t : TestName)
    (hm : mapFind s.testMetrics t = none) : trackConversion s t = s := by
  cases hf : findTest t with
  | none => simp [trackConversion, hf]
  | some test => cases he : test.enabled <;> simp [trackConversion, hf, he, hm]

theorem trackImpression_some (s : ABState) (t : TestName) (test : Test)
    (metrics : TestMetrics) (hf : findTest t = some test) (he : test.enabled = true)
    (hm : mapFind s.testMetrics t = some metrics) :
    trackImpression s t =
      { s with testMetrics := (mapSet s.testMetrics t
          ⟨metrics.variant, metrics.impressions + 1, metrics.conversions,
            (metrics.conversions : ℚ) / ((metrics.impressions + 1 : ℕ) : ℚ) * 100⟩) } := by
  simp [trackImpression, hf, he, hm]

theorem trackConversion_some_pos (s : ABState) (t : TestName) (test : Test)
    (metrics : TestMetrics) (hf : findTest t = some test) (he : test.enabled = true)
    (hm : mapFind s.testMetrics t = some metrics) (him : 0 < metrics.impressions) :
    trackConversion s t =
      { s with testMetrics := (mapSet s.testMetrics t
          ⟨metrics.variant, metrics.impressions, metrics.conversions + 1,
            ((metrics.conversions + 1 : ℕ) : ℚ) / (metrics.impressions : ℚ) * 100⟩) } := by
  simp [trackConversion, hf, he, hm, him]

theorem trackConversion_some_zero (s : ABState) (t : TestName) (test : Test)
    (metrics : TestMetrics) (hf : findTest t = some test) (he : test.enabled = true)
    (hm : mapFind s.testMetrics t = some metrics) (him : metrics.impressions = 0) :
    trackConversion s t =
      { s with testMetrics := (mapSet s.testMetrics t
          ⟨metrics.variant, metrics.impressions, metrics.conversions + 1,
            metrics.conversionRate⟩) } := by
  simp [trackConversion, hf, he, hm, him]

theorem trackImpression_metrics_other (s : ABState) (t' t : TestName) (h : t' ≠ t) :
    mapFind (trackImpression s t').testMetrics t = mapFind s.testMetrics t := by
  cases hf : findTest t' with
  | none => simp [trackImpression, hf]
  | some test =>
      cases he : test.enabled with
      | false => simp [trackImpression, hf, he]
      | true =>
          cases hm : mapFind s.testMetrics t' with
          | none => simp [trackImpression, hf, he, hm]
          | some metrics =>
              simp [trackImpression, hf, he, hm,
                mapFind_mapSet_ne _ t' t _ (Ne.symm h)]

theorem trackConversion_metrics_other (s : ABState) (t' t : TestName) (h : t' ≠ t) :
    mapFind (trackConversion s t').testMetrics t = mapFind s.testMetrics t := by
  cases hf : findTest t' with
  | none => simp [trackConversion, hf]
  | some test =>
      cases he : test.enabled with
      | false => simp [trackConversion, hf, he]
      | true =>
          cases hm : mapFind s.testMetrics t' with
          | none => simp [trackConversion, hf, he, hm]
          | some metrics =>
              simp [trackConversion, hf, he, hm,
                mapFind_mapSet_ne _ t' t _ (Ne.symm h)]

theorem trackImpression_assigned (s : ABState) (t : TestName) :
    (trackImpression s t).assignedVariants = s.assignedVariants := by
  cases hf : findTest t with
  | none => simp [trackImpression, hf]
  | some test =>
      cases he : test.enabled with
      | false => simp [trackImpression, hf, he]
      | true =>
          cases hm : mapFind s.testMetrics t with
          | none => simp [trackImpression, hf, he, hm]
          | some metrics => simp [trackImpression, hf, he, hm]

theorem trackConversion_assigned (s : ABState) (t : TestName) :
    (trackConversion s t).assignedVariants = s.assignedVariants := by
  cases hf : findTest t with
  | none => simp [trackConversion, hf]
  | some test =>
      cases he : test.enabled with
      | false => simp [trackConversion, hf, he]
      | true =>
          cases hm : mapFind s.testMetrics t with
          | none => simp [trackConversion, hf, he, hm]
          | some metrics => simp [trackConversion, hf, he, hm]

theorem stepEvent_assigned (s : ABState) (e : Event) :
    (stepEvent s e).assignedVariants = s.assignedVariants := by
  cases e with
  | impression t => exact trackImpression_assigned s t
  | conversion t => exact trackConversion_assigned s t

theorem runEvents_assigned (es : List Event) :
    ∀ s : ABState, (runEvents s es).assignedVariants = s.assignedVariants := by
  induction es with
  | nil => intro s; rfl
  | cons e es ih =>
      intro s
      calc (runEvents (stepEvent s e) es).assignedVariants
          = (stepEvent s e).assignedVariants := ih (stepEvent s e)
        _ = s.assignedVariants := stepEvent_assigned s e

theorem stepEvent_metrics_none (s : ABState) (e : Event) (t : TestName)
    (h : mapFind s.testMetrics t = none) :
    mapFind (stepEvent s e).testMetrics t = none := by
  cases e with
  | impression t' =>
      show mapFind (trackImpression s t').testMetrics t = none
      by_cases htt : t' = t
      · subst htt; rw [trackImpression_no_metrics s t' h]; exact h
      · rw [trackImpression_metrics_other s t' t htt]; exact h
  | conversion t' =>
      show mapFind (trackConversion s t').testMetrics t = none
      by_cases htt : t' = t
      · subst htt; rw [trackConversion_no_metrics s t' h]; exact h
      · rw [trackConversion_metrics_other s t' t htt]; exact h

theorem runEvents_metrics_none (es : List Event) :
    ∀ (s : ABState) (t : TestName), mapFind s.testMetrics t = none →
      mapFind (runEvents s es).testMetrics t = none := by
  induction es with
  | nil => intro s t h; exact h
  | cons e es ih =>
      intro s t h
      exact ih (stepEvent s e) t (stepEvent_metrics_none s e t h)

/- ### The weighted selector refines the spec's cumulative-weight walk -/

theorem specFirstCumGe_nil (dist : List ℚ) (r : ℚ) :
    specFirstCumGe [] dist r = none := by
  simp [specFirstCumGe]

theorem specFirstCumGe_cons (v : String) (vs : List String) (w : ℚ) (ws : List ℚ)
    (r : ℚ) :
    specFirstCumGe (v :: vs) (w :: ws) r =
      if r ≤ w then some v else specFirstCumGe vs ws (r - w) := by
  by_cases h : r ≤ w
  · have h0 : cumulativeWeight (w :: ws) 0 = w := by
      simp [cumulativeWeight]
    simp [specFirstCumGe, List.range_succ_eq_map, List.find?_cons, h0, h]
  · have h0 : cumulativeWeight (w :: ws) 0 = w := by
      simp [cumulativeWeight]
    have hpred : (fun i => decide (r ≤ cumulativeWeight (w :: ws) (i + 1))) =
        (fun i => decide (r - w ≤ cumulativeWeight ws i)) := by
      funext i
      apply decide_eq_decide.mpr
      have hcum : cumulativeWeight (w :: ws) (i + 1) = w + cumulativeWeight ws i := by
        simp [cumulativeWeight]
      rw [hcum]
      constructor <;> intro hh <;> linarith
    simp only [specFirstCumGe, List.length_cons, List.range_succ_eq_map,
      List.find?_cons, h0, h, decide_eq_true_eq, if_neg]
    rw [if_neg (by simp [h])]
    rw [List.find?_map]
    simp only [decide_False]
    rw [show ((fun i => decide (r ≤ cumulativeWeight (w :: ws) i)) ∘ Nat.succ) =
      (fun i => decide (r - w ≤ cumulativeWeight ws i)) from by
        funext i
        exact congrFun hpred i]
    rw [Option.map_map]
    rfl

theorem walkWeights_eq_spec :
    ∀ (vs : List String) (ws : List ℚ) (r c : ℚ), ws.length = vs.length →
      walkWeights vs ws r c = specFirstCumGe vs ws (r - c) := by
  intro vs
  induction vs with
  | nil =>
      intro ws r c _
      rw [specFirstCumGe_nil]
      cases ws <;> rfl
  | cons v vs ih =>
      intro ws r c h
      cases ws with
      | nil => simp at h
      | cons w ws =>
          rw [specFirstCumGe_cons]
          show (if r ≤ c + w then some v else walkWeights vs ws r (c + w)) = _
          by_cases hc : r ≤ c + w
          · rw [if_pos hc, if_pos (by linarith : r - c ≤ w)]
          · rw [if_neg hc, if_neg (fun hh => hc (by linarith))]
            rw [ih ws r (c + w) (by simpa using h)]
            congr 1
            ring

theorem walkWeights_mem :
    ∀ (vs : List String) (ws : List ℚ) (r c : ℚ) (v : String),
      walkWeights vs ws r c = some v → v ∈ vs := by
  intro vs
  induction vs with
  | nil => intro ws r c v h; cases ws <;> cases h
  | cons x vs ih =>
      intro ws r c v h
      cases ws with
      | nil => cases h
      | cons w ws =>
          show v ∈ x :: vs
          by_cases hc : r ≤ c + w
          · rw [show walkWeights (x :: vs) (w :: ws) r c = some x from by
              show (if r ≤ c + w then some x else _) = some x
              rw [if_pos hc]] at h
            injection h with h
            subst h
            exact List.mem_cons_self _ _
          · rw [show walkWeights (x :: vs) (w :: ws) r c = walkWeights vs ws r (c + w) from by
              show (if r ≤ c + w then some x else _) = _
              rw [if_neg hc]] at h
            exact List.mem_cons_of_mem _ (ih ws r (c + w) v h)

theorem chooseByDistribution_eq_spec (variants : List String) (dist : List ℚ)
    (r : ℚ) (hlen : dist.length = variants.length) (hne : "" ∉ variants) :
    chooseByDistribution variants dist r =
      (specFirstCumGe variants dist r).getD (variants.getLastD "") := by
  have hw : walkWeights variants dist r 0 = specFirstCumGe variants dist r := by
    have := walkWeights_eq_spec variants dist r 0 hlen
    rwa [sub_zero] at this
  cases hs : specFirstCumGe variants dist r with
  | none =>
      rw [show chooseByDistribution variants dist r =
        (match walkWeights variants dist r 0 with
          | some v => if v = "" then variants.getLastD "" else v
          | none => variants.getLastD "") from rfl]
      rw [hw, hs]
      rfl
  | some v =>
      have hv : v ∈ variants :=
        walkWeights_mem variants dist r 0 v (by rw [hw, hs])
      have hv' : ¬ v = "" := fun h => hne (h ▸ hv)
      rw [show chooseByDistribution variants dist r =
        (match walkWeights variants dist r 0 with
          | some v => if v = "" then variants.getLastD "" else v
          | none => variants.getLastD "") from rfl]
      rw [hw, hs]
      simp [hv']

/-- C3: for an enabled experiment with a distribution, on first encounter
(no assignment persisted yet) `assignMissingVariants` assigns exactly the
first variant, in configured order, whose cumulative weight is ≥ the
uniform draw r, falling back to the last variant when no cumulative weight
reaches r; and the constructor persists the assignment map into storage
before `getVariant` can return it. -/
theorem C3_weighted_first_match (draws : TestName → ℚ) (s : ABState) (test : Test)
    (dist : List ℚ) (hen : test.enabled = true) (hdist : test.distribution = some dist)
    (hlen : dist.length = test.variants.length) (hne : "" ∉ test.variants)
    (hun : mapFind s.assignedVariants test.name = none) :
    mapFind (assignOne draws s test).assignedVariants test.name =
      some ((specFirstCumGe test.variants dist (draws test.name)).getD
        (test.variants.getLastD "")) ∧
    ∀ (stored : List (TestName × String)) (draws2 : TestName → ℚ),
      (newService stored draws2).storage = (newService stored draws2).assignedVariants := by
  constructor
  · rw [← chooseByDistribution_eq_spec test.variants dist (draws test.name) hlen hne]
    simp [assignOne, hen, hun, hdist, mapFind_mapSet_self]
  · intro stored draws2
    rfl

/-- C3 witness: an enabled copy of the homepage test, draw 1/2: cumulative
weights 0.4 then 0.7 ≥ 1/2, so LocationFirst is picked, matching the
spec-side first-match selector. -/
theorem C3_weighted_first_match_witness :
    mapFind (assignOne draws0 emptyState homepageEnabled).assignedVariants
      TestName.HOMEPAGE_LAYOUT =
      some ((specFirstCumGe homepageEnabled.variants [4 / 10, 3 / 10, 3 / 10]
        (draws0 TestName.HOMEPAGE_LAYOUT)).getD
          (homepageEnabled.variants.getLastD "")) ∧
    specFirstCumGe homepageEnabled.variants [4 / 10, 3 / 10, 3 / 10]
      (draws0 TestName.HOMEPAGE_LAYOUT) = some "LocationFirst" := by
  constructor
  · exact (C3_weighted_first_match draws0 emptyState homepageEnabled
      [4 / 10, 3 / 10, 3 / 10] rfl rfl (by decide) (by decide) (by decide)).1
  · show specFirstCumGe ["Standard", "LocationFirst", "PersonalizedFirst"]
      [4 / 10, 3 / 10, 3 / 10] (1 / 2) = some "LocationFirst"
    rw [specFirstCumGe_cons, if_neg (by norm_num), specFirstCumGe_cons,
      if_pos (by norm_num)]

/- ### Assignments are never overwritten -/

theorem testEnabled_some (t : TestName) (h : testEnabled t = true) :
    ∃ test, findTest t = some test ∧ test.enabled = true := by
  cases hf : findTest t with
  | none => simp [testEnabled, hf] at h
  | some test => exact ⟨test, rfl, by simpa [testEnabled, hf] using h⟩

theorem assignOne_keeps (draws : TestName → ℚ) (s : ABState) (test : Test)
    (t : TestName) (v : String) (h : mapFind s.assignedVariants t = some v) :
    mapFind (assignOne draws s test).assignedVariants t = some v ∧
    mapFind (assignOne draws s test).testMetrics t = mapFind s.testMetrics t := by
  cases hen : test.enabled with
  | false => constructor <;> simp [assignOne, hen, h]
  | true =>
      cases hs : mapFind s.assignedVariants test.name with
      | some w => constructor <;> simp [assignOne, hen, hs, h]
      | none =>
          have hne : test.name ≠ t := by
            intro heq
            rw [heq, h] at hs
            cases hs
          constructor <;>
            simp [assignOne, hen, hs, mapFind_mapSet_ne _ _ _ _ (Ne.symm hne), h]

theorem foldl_assignOne_keeps (draws : TestName → ℚ) :
    ∀ (tests : List Test) (s : ABState) (t : TestName) (v : String),
      mapFind s.assignedVariants t = some v →
      mapFind (tests.foldl (assignOne draws) s).assignedVariants t = some v ∧
      mapFind (tests.foldl (assignOne draws) s).testMetrics t =
        mapFind s.testMetrics t := by
  intro tests
  induction tests with
  | nil => intro s t v h; exact ⟨h, rfl⟩
  | cons test tests ih =>
      intro s t v h
      have h1 := assignOne_keeps draws s test t v h
      have h2 := ih (assignOne draws s test) t v h1.1
      exact ⟨h2.1, h2.2.trans h1.2⟩

/-- C4: for a fixed subject, once an enabled experiment has an assigned
variant, `getVariant` returns it, and it keeps returning the same variant
after any further assignment pass and any sequence of tracking calls:
`getVariant` never mutates the assignment map and `assignMissingVariants`
never reassigns an experiment that already has a variant. -/
theorem C4_stable_assignment (s : ABState) (t : TestName) (v : String)
    (hen : testEnabled t = true) (hv : mapFind s.assignedVariants t = some v)
    (hne : v ≠ "") :
    getVariant s t = some v ∧
    ∀ (tests : List Test) (draws : TestName → ℚ) (es : List Event),
      getVariant (runEvents (assignMissingVariants tests draws s) es) t = some v := by
  obtain ⟨test, hf, he⟩ := testEnabled_some t hen
  constructor
  · simp [getVariant, hf, he, hv, hne]
  · intro tests draws es
    have h1 : mapFind (assignMissingVariants tests draws s).assignedVariants t =
        some v := (foldl_assignOne_keeps draws tests s t v hv).1
    have h2 : mapFind (runEvents (assignMissingVariants tests draws s)
        es).assignedVariants t = some v := by
      rw [runEvents_assigned]
      exact h1
    simp [getVariant, hf, he, h2, hne]

/-- C4 witness: the fresh assignment of `recommendation_explanation`
survives another assignment pass and an impression. -/
theorem C4_stable_assignment_witness :
    getVariant (newService [] draws0) TestName.RECOMMENDATION_EXPLANATION =
      some "B" ∧
    getVariant (runEvents (assignMissingVariants [] draws0 (newService [] draws0))
        [Event.impression TestName.RECOMMENDATION_EXPLANATION])
      TestName.RECOMMENDATION_EXPLANATION = some "B" := by
  have h := C4_stable_assignment (newService [] draws0)
    TestName.RECOMMENDATION_EXPLANATION "B" (by decide)
    (by rw [newService_eval]; decide) (by decide)
  exact ⟨h.1, h.2 [] draws0 [Event.impression TestName.RECOMMENDATION_EXPLANATION]⟩

/-- C9: when an enabled experiment's variant was restored from persisted
storage at construction, `assignMissingVariants` skips it, so no metrics
entry is ever created for it: `getVariant` returns the restored variant,
while `getMetrics` stays null and both tracking calls are no-ops, in the
constructed state and after any sequence of tracking calls. -/
theorem C9_restored_no_metrics (stored : List (TestName × String))
    (draws : TestName → ℚ) (t : TestName) (v : String)
    (hen : testEnabled t = true)
    (hv : mapFind (stored.foldl (fun m p => mapSet m p.1 p.2)
        ([] : List (TestName × String))) t = some v)
    (hne : v ≠ "") :
    getVariant (newService stored draws) t = some v ∧
    ∀ es : List Event,
      getMetrics (runEvents (newService stored draws) es) t = none ∧
      trackImpression (runEvents (newService stored draws) es) t =
        runEvents (newService stored draws) es ∧
      trackConversion (runEvents (newService stored draws) es) t =
        runEvents (newService stored draws) es := by
  obtain ⟨test, hf, he⟩ := testEnabled_some t hen
  have hbase : mapFind (loadAssignedVariants stored
      { assignedVariants := [], testMetrics := [],
        storage := stored }).assignedVariants t = some v := hv
  have hkeep := foldl_assignOne_keeps draws AVAILABLE_TESTS
    (loadAssignedVariants stored
      { assignedVariants := [], testMetrics := [], storage := stored }) t v hbase
  have hsvc_assigned : mapFind (newService stored draws).assignedVariants t =
      some v := hkeep.1
  have hsvc_metrics : mapFind (newService stored draws).testMetrics t = none :=
    hkeep.2
  constructor
  · simp [getVariant, hf, he, hsvc_assigned, hne]
  · intro es
    have hm : mapFind (runEvents (newService stored draws) es).testMetrics t =
        none := runEvents_metrics_none es _ t hsvc_metrics
    exact ⟨hm, trackImpression_no_metrics _ t hm, trackConversion_no_metrics _ t hm⟩

/-- C9 witness: a persisted variant "A" for `recommendation_explanation` is
restored, reported by `getVariant`, and gets no metrics entry. -/
theorem C9_restored_no_metrics_witness :
    getVariant (newService [(TestName.RECOMMENDATION_EXPLANATION, "A")] draws0)
      TestName.RECOMMENDATION_EXPLANATION = some "A" ∧
    getMetrics (newService [(TestName.RECOMMENDATION_EXPLANATION, "A")] draws0)
      TestName.RECOMMENDATION_EXPLANATION = none := by
  have h := C9_restored_no_metrics [(TestName.RECOMMENDATION_EXPLANATION, "A")]
    draws0 TestName.RECOMMENDATION_EXPLANATION "A" (by decide) (by decide) (by decide)
  exact ⟨h.1, (h.2 []).1⟩

/- ### The conversion-rate invariant over reachable states -/

theorem trackImpression_metrics_self (s : ABState) (t : TestName) (test : Test)
    (metrics : TestMetrics) (hf : findTest t = some test) (he : test.enabled = true)
    (hm : mapFind s.testMetrics t = some metrics) :
    mapFind (trackImpression s t).testMetrics t =
      some ⟨metrics.variant, metrics.impressions + 1, metrics.conversions,
        (metrics.conversions : ℚ) / ((metrics.impressions + 1 : ℕ) : ℚ) * 100⟩ := by
  rw [trackImpression_some s t test metrics hf he hm]
  exact mapFind_mapSet_self _ _ _

theorem trackConversion_metrics_self_pos (s : ABState) (t : TestName) (test : Test)
    (metrics : TestMetrics) (hf : findTest t = some test) (he : test.enabled = true)
    (hm : mapFind s.testMetrics t = some metrics) (him : 0 < metrics.impressions) :
    mapFind (trackConversion s t).testMetrics t =
      some ⟨metrics.variant, metrics.impressions, metrics.conversions + 1,
        ((metrics.conversions + 1 : ℕ) : ℚ) / (metrics.impressions : ℚ) * 100⟩ := by
  rw [trackConversion_some_pos s t test metrics hf he hm him]
  exact mapFind_mapSet_self _ _ _

theorem trackConversion_metrics_self_zero (s : ABState) (t : TestName) (test : Test)
    (metrics : TestMetrics) (hf : findTest t = some test) (he : test.enabled = true)
    (hm : mapFind s.testMetrics t = some metrics) (him : metrics.impressions = 0) :
    mapFind (trackConversion s t).testMetrics t =
      some ⟨metrics.variant, metrics.impressions, metrics.conversions + 1,
        metrics.conversionRate⟩ := by
  rw [trackConversion_some_zero s t test metrics hf he hm him]
  exact mapFind_mapSet_self _ _ _

theorem assignOne_metrics_cases (draws : TestName → ℚ) (s : ABState) (test : Test)
    (t : TestName) :
    mapFind (assignOne draws s test).testMetrics t = mapFind s.testMetrics t ∨
    ∃ v, mapFind (assignOne draws s test).testMetrics t = some ⟨v, 0, 0, 0⟩ := by
  cases hen : test.enabled with
  | false => left; simp [assignOne, hen]
  | true =>
      cases hs : mapFind s.assignedVariants test.name with
      | some v => left; simp [assignOne, hen, hs]
      | none =>
          by_cases htt : t = test.name
          · subst htt
            right
            refine ⟨(match test.distribution with
              | some dist => chooseByDistribution test.variants dist (draws test.name)
              | none => chooseUniform test.variants (draws test.name)), ?_⟩
            simp [assignOne, hen, hs, mapFind_mapSet_self]
          · left; simp [assignOne, hen, hs, mapFind_mapSet_ne _ _ _ _ htt]

theorem assignOne_metricsInv (draws : TestName → ℚ) (s : ABState) (test : Test)
    (h : MetricsRateInv s) : MetricsRateInv (assignOne draws s test) := by
  intro t m hm
  rcases assignOne_metrics_cases draws s test t with hc | ⟨v, hc⟩
  · rw [hc] at hm; exact h t m hm
  · rw [hc] at hm
    injection hm with hm
    subst hm
    simp

theorem foldl_assignOne_metricsInv (draws : TestName → ℚ) :
    ∀ (tests : List Test) (s : ABState), MetricsRateInv s →
      MetricsRateInv (tests.foldl (assignOne draws) s) := by
  intro tests
  induction tests with
  | nil => intro s h; exact h
  | cons test tests ih =>
      intro s h
      exact ih (assignOne draws s test) (assignOne_metricsInv draws s test h)

theorem newService_metricsInv (stored : List (TestName × String))
    (draws : TestName → ℚ) : MetricsRateInv (newService stored draws) := by
  have hbase : MetricsRateInv (loadAssignedVariants stored
      { assignedVariants := [], testMetrics := [], storage := stored }) := by
    intro t m hm
    simp [loadAssignedVariants, mapFind] at hm
  intro t m hm
  exact foldl_assignOne_metricsInv draws AVAILABLE_TESTS _ hbase t m hm

theorem stepEvent_metricsInv (s : ABState) (e : Event) (h : MetricsRateInv s) :
    MetricsRateInv (stepEvent s e) := by
  cases e with
  | impression t' =>
      show MetricsRateInv (trackImpression s t')
      cases hf : findTest t' with
      | none => rwa [show trackImpression s t' = s from by simp [trackImpression, hf]]
      | some test =>
          cases he : test.enabled with
          | false => rwa [show trackImpression s t' = s from by simp [trackImpression, hf, he]]
          | true =>
              cases hm : mapFind s.testMetrics t' with
              | none => rwa [trackImpression_no_metrics s t' hm]
              | some metrics =>
                  intro u m hu
                  by_cases hut : u = t'
                  · subst hut
                    rw [trackImpression_metrics_self s u test metrics hf he hm] at hu
                    injection hu with hu
                    subst hu
                    simp
                  · rw [trackImpression_metrics_other s t' u
                      (fun hh => hut hh.symm)] at hu
                    exact h u m hu
  | conversion t' =>
      show MetricsRateInv (trackConversion s t')
      cases hf : findTest t' with
      | none => rwa [show trackConversion s t' = s from by simp [trackConversion, hf]]
      | some test =>
          cases he : test.enabled with
          | false => rwa [show trackConversion s t' = s from by simp [trackConversion, hf, he]]
          | true =>
              cases hm : mapFind s.testMetrics t' with
              | none => rwa [trackConversion_no_metrics s t' hm]
              | some metrics =>
                  intro u m hu
                  by_cases hut : u = t'
                  · subst hut
                    by_cases him : 0 < metrics.impressions
                    · rw [trackConversion_metrics_self_pos s u test metrics hf he hm him] at hu
                      injection hu with hu
                      subst hu
                      simp [him]
                    · have him0 : metrics.impressions = 0 := by omega
                      rw [trackConversion_metrics_self_zero s u test metrics hf he hm him0] at hu
                      injection hu with hu
                      subst hu
                      have hrate := h u metrics hm
                      rw [him0] at hrate
                      simp at hrate
                      simp [him0, hrate]
                  · rw [trackConversion_metrics_other s t' u
                      (fun hh => hut hh.symm)] at hu
                    exact h u m hu

theorem runEvents_metricsInv (es : List Event) :
    ∀ s : ABState, MetricsRateInv s → MetricsRateInv (runEvents s es) := by
  induction es with
  | nil => intro s h; exact h
  | cons e es ih =>
      intro s h
      exact ih (stepEvent s e) (stepEvent_metricsInv s e h)

theorem reachable_metricsInv (s : ABState) (h : Reachable s) : MetricsRateInv s := by
  obtain ⟨stored, draws, es, rfl⟩ := h
  exact runEvents_metricsInv es _ (newService_metricsInv stored draws)

/- ### Counting impressions and conversions over arbitrary interleavings -/

theorem runEvents_counts (t : TestName) (ht : testEnabled t = true) :
    ∀ (es : List Event) (s : ABState) (v : String) (i c : ℕ),
      mapFind s.testMetrics t =
        some ⟨v, i, c, if 0 < i then (c : ℚ) / (i : ℚ) * 100 else 0⟩ →
      mapFind (runEvents s es).testMetrics t =
        some ⟨v, i + countImp t es, c + countConv t es,
          if 0 < i + countImp t es then
            ((c + countConv t es : ℕ) : ℚ) / ((i + countImp t es : ℕ) : ℚ) * 100
          else 0⟩ := by
  obtain ⟨test, hf, he⟩ := testEnabled_some t ht
  intro es
  induction es with
  | nil =>
      intro s v i c hm
      simpa [runEvents, countImp, countConv] using hm
  | cons e es ih =>
      intro s v i c hm
      cases e with
      | impression t' =>
          by_cases htt : t' = t
          · subst htt
            have hform : mapFind (trackImpression s t').testMetrics t' =
                some ⟨v, i + 1, c,
                  if 0 < i + 1 then (c : ℚ) / ((i + 1 : ℕ) : ℚ) * 100 else 0⟩ := by
              rw [trackImpression_metrics_self s t' test _ hf he hm]
              simp
            have hrun := ih (trackImpression s t') v (i + 1) c hform
            have harith : i + 1 + countImp t' es =
                i + countImp t' (Event.impression t' :: es) := by
              simp [countImp]
              omega
            have hconv : countConv t' (Event.impression t' :: es) = countConv t' es := by
              simp [countConv]
            rw [harith] at hrun
            rw [show runEvents s (Event.impression t' :: es) =
              runEvents (trackImpression s t') es from rfl]
            rw [hrun, hconv]
          · have hother : mapFind (trackImpression s t').testMetrics t =
                mapFind s.testMetrics t := trackImpression_metrics_other s t' t htt
            have hrun := ih (trackImpression s t') v i c (by rw [hother]; exact hm)
            have himp : countImp t (Event.impression t' :: es) = countImp t es := by
              simp [countImp, htt]
            have hconv : countConv t (Event.impression t' :: es) = countConv t es := by
              simp [countConv]
            rw [show runEvents s (Event.impression t' :: es) =
              runEvents (trackImpression s t') es from rfl]
            rw [hrun, himp, hconv]
      | conversion t' =>
          by_cases htt : t' = t
          · subst htt
            by_cases him : 0 < i
            · have hform : mapFind (trackConversion s t').testMetrics t' =
                  some ⟨v, i, c + 1,
                    if 0 < i then ((c + 1 : ℕ) : ℚ) / (i : ℚ) * 100 else 0⟩ := by
                rw [trackConversion_metrics_self_pos s t' test _ hf he hm (by simpa using him)]
                simp [him]
              have hrun := ih (trackConversion s t') v i (c + 1) hform
              have harith : c + 1 + countConv t' es =
                  c + countConv t' (Event.conversion t' :: es) := by
                simp [countConv]
                omega
              have himp : countImp t' (Event.conversion t' :: es) = countImp t' es := by
                simp [countImp]
              rw [harith] at hrun
              rw [show runEvents s (Event.conversion t' :: es) =
                runEvents (trackConversion s t') es from rfl]
              rw [hrun, himp]
            · have hi0 : i = 0 := by omega
              subst hi0
              have hform : mapFind (trackConversion s t').testMetrics t' =
                  some ⟨v, 0, c + 1,
                    if 0 < (0 : ℕ) then ((c + 1 : ℕ) : ℚ) / ((0 : ℕ) : ℚ) * 100
                    else 0⟩ := by
                rw [trackConversion_metrics_self_zero s t' test _ hf he hm (by simp)]
                simp
              have hrun := ih (trackConversion s t') v 0 (c + 1) hform
              have harith : c + 1 + countConv t' es =
                  c + countConv t' (Event.conversion t' :: es) := by
                simp [countConv]
                omega
              have himp : countImp t' (Event.conversion t' :: es) = countImp t' es := by
                simp [countImp]
              rw [harith] at hrun
              rw [show runEvents s (Event.conversion t' :: es) =
                runEvents (trackConversion s t') es from rfl]
              rw [hrun, himp]
          · have hother : mapFind (trackConversion s t').testMetrics t =
                mapFind s.testMetrics t := trackConversion_metrics_other s t' t htt
            have hrun := ih (trackConversion s t') v i c (by rw [hother]; exact hm)
            have himp : countImp t (Event.conversion t' :: es) = countImp t es := by
              simp [countImp]
            have hconv : countConv t (Event.conversion t' :: es) = countConv t es := by
              simp [countConv, htt]
            rw [show runEvents s (Event.conversion t' :: es) =
              runEvents (trackConversion s t') es from rfl]
            rw [hrun, himp, hconv]

/-- C7: for an enabled experiment whose metrics start from zero counters,
any interleaving of 100 `trackImpression` calls and 25 `trackConversion`
calls (possibly interleaved with calls for other experiments) ends with
`getMetrics` reporting impressions = 100, conversions = 25 and
conversionRate = 25. -/
theorem C7_hundred_impressions (s : ABState) (t : TestName) (v : String)
    (es : List Event) (hen : testEnabled t = true)
    (hm : mapFind s.testMetrics t = some ⟨v, 0, 0, 0⟩)
    (himp : countImp t es = 100) (hconv : countConv t es = 25) :
    getMetrics (runEvents s es) t = some ⟨v, 100, 25, 25⟩ := by
  have h0 : mapFind s.testMetrics t =
      some ⟨v, 0, 0, if 0 < (0 : ℕ) then ((0 : ℕ) : ℚ) / ((0 : ℕ) : ℚ) * 100
        else 0⟩ := by
    simpa using hm
  have h := runEvents_counts t hen es s v 0 0 h0
  rw [himp, hconv] at h
  show mapFind (runEvents s es).testMetrics t = some ⟨v, 100, 25, 25⟩
  rw [h]
  norm_num

/-- C7 witness: all 100 impressions first, then the 25 conversions, on the
freshly assigned `recommendation_explanation` test. -/
theorem C7_hundred_impressions_witness :
    getMetrics (runEvents (newService [] draws0)
        (List.replicate 100 (Event.impression TestName.RECOMMENDATION_EXPLANATION) ++
          List.replicate 25 (Event.conversion TestName.RECOMMENDATION_EXPLANATION)))
      TestName.RECOMMENDATION_EXPLANATION = some ⟨"B", 100, 25, 25⟩ := by
  apply C7_hundred_impressions
  · decide
  · rw [newService_eval]; decide
  · decide
  · decide

/-- C1 counterexample: one `trackConversion` on a fresh service leaves the
`recommendation_explanation` metrics at impressions = 0, conversions = 1
with a stored `conversionRate` of 0, while the claimed formula
`conversions / max(impressions, 1) * 100` gives 100. -/
theorem C1_stale_rate_cex :
    getMetrics (runEvents (newService [] draws0)
        [Event.conversion TestName.RECOMMENDATION_EXPLANATION])
      TestName.RECOMMENDATION_EXPLANATION = some ⟨"B", 0, 1, 0⟩ ∧
    ¬ ((0 : ℚ) = ((1 : ℕ) : ℚ) / ((max 0 1 : ℕ) : ℚ) * 100) := by
  constructor
  · rw [newService_eval]; decide
  · norm_num

/-- C1 (amended): in every reachable state, the stored `conversionRate`
returned by `getMetrics` equals `conversions / impressions * 100` when
`impressions > 0`, and is 0 when `impressions = 0` (even if conversions
have been counted); it is recomputed at tracking time, not at read time,
so with zero impressions it does not follow the
`conversions / max(impressions, 1) * 100` formula. -/
theorem C1_conversionRate_invariant (s : ABState) (h : Reachable s)
    (t : TestName) (m : TestMetrics) (hm : getMetrics s t = some m) :
    m.conversionRate =
      if 0 < m.impressions then (m.conversions : ℚ) / (m.impressions : ℚ) * 100
      else 0 :=
  reachable_metricsInv s h t m hm

/-- C1 witness: the invariant evaluated on a freshly constructed service. -/
theorem C1_conversionRate_invariant_witness :
    ∃ m : TestMetrics,
      getMetrics (newService [] draws0) TestName.RECOMMENDATION_EXPLANATION = some m ∧
      m.conversionRate =
        if 0 < m.impressions then (m.conversions : ℚ) / (m.impressions : ℚ) * 100
        else 0 := by
  refine ⟨⟨"B", 0, 0, 0⟩, ?_, ?_⟩
  · rw [newService_eval]; decide
  · exact C1_conversionRate_invariant (newService [] draws0) ⟨[], draws0, [], rfl⟩
      TestName.RECOMMENDATION_EXPLANATION ⟨"B", 0, 0, 0⟩
      (by rw [newService_eval]; decide)

/-- C2: for every experiment name that is disabled or not among the
configured tests, `getVariant` returns null and `trackImpression` /
`trackConversion` return without throwing and without changing any
impression or conversion counter (the whole state is unchanged). -/
theorem C2_disabled_unknown_noop (s : ABState) (t : TestName)
    (h : testEnabled t = false) :
    getVariant s t = none ∧ trackImpression s t = s ∧ trackConversion s t = s :=
  disabled_noop s t h

/-- C2 witness: the disabled `homepage_layout` test on a freshly
constructed service. -/
theorem C2_disabled_unknown_noop_witness :
    getVariant (newService [] draws0) TestName.HOMEPAGE_LAYOUT = none ∧
    trackImpression (newService [] draws0) TestName.HOMEPAGE_LAYOUT = newService [] draws0 ∧
    trackConversion (newService [] draws0) TestName.HOMEPAGE_LAYOUT = newService [] draws0 :=
  C2_disabled_unknown_noop (newService [] draws0) TestName.HOMEPAGE_LAYOUT (by decide)

/-- C6: a conversion can be tracked without a matching impression: after a
single `trackConversion` call on a fresh service, the enabled
`recommendation_explanation` test reports conversions strictly greater
than impressions. -/
theorem C6_conversions_exceed_impressions :
    ∃ es : List Event, ∃ m : TestMetrics,
      getMetrics (runEvents (newService [] draws0) es)
          TestName.RECOMMENDATION_EXPLANATION = some m ∧
      m.impressions < m.conversions := by
  refine ⟨[Event.conversion TestName.RECOMMENDATION_EXPLANATION],
    ⟨"B", 0, 1, 0⟩, ?_, by decide⟩
  rw [newService_eval]
  decide

/-- C10: for every month in 1..12, `getCurrentSeason` returns exactly one
of the four seasons, and each season corresponds exactly to its three
months. -/
theorem C10_getCurrentSeason_partition (m : ℕ) (h1 : 1 ≤ m) (h2 : m ≤ 12) :
    (getCurrentSeason m = "spring" ∨ getCurrentSeason m = "summer" ∨
      getCurrentSeason m = "fall" ∨ getCurrentSeason m = "winter") ∧
    (getCurrentSeason m = "spring" ↔ (m = 3 ∨ m = 4 ∨ m = 5)) ∧
    (getCurrentSeason m = "summer" ↔ (m = 6 ∨ m = 7 ∨ m = 8)) ∧
    (getCurrentSeason m = "fall" ↔ (m = 9 ∨ m = 10 ∨ m = 11)) ∧
    (getCurrentSeason m = "winter" ↔ (m = 12 ∨ m = 1 ∨ m = 2)) := by
  interval_cases m <;> decide

/-- C10 witness: July is summer. -/
theorem C10_getCurrentSeason_partition_witness :
    getCurrentSeason 7 = "summer" :=
  (C10_getCurrentSeason_partition 7 (by decide) (by decide)).2.2.1.mpr
    (Or.inr (Or.inl rfl))

/-- C8 counterexample: when the post fails, `interactionService.logInteraction`
returns true, not false — the error was already swallowed by
`api.logInteraction`, so the service-level catch never fires. -/
theorem C8_returns_true_on_failure_cex :
    (serviceLogInteraction failPost [] "u1" "c1" InteractionType.view).1 =
      Except.ok true ∧
    (serviceLogInteraction failPost [] "u1" "c1" InteractionType.view).1 ≠
      Except.ok false := by
  refine ⟨rfl, ?_⟩
  intro h
  rw [show (serviceLogInteraction failPost [] "u1" "c1" InteractionType.view).1 =
      Except.ok true from rfl] at h
  simp at h

/-- C8 (amended): `logInteraction` never propagates a failure: both
`api.logInteraction` and `interactionService.logInteraction` always return
normally; when the underlying post fails, `api.logInteraction` swallows the
error and returns undefined, and `interactionService.logInteraction`
therefore returns true (not false). -/
theorem C8_logInteraction_swallows
    (post : InteractionRequest → Except String String) (store : SavedStore)
    (u c : String) (ty : InteractionType) :
    (∃ r, apiLogInteraction post u c ty = Except.ok r) ∧
    (∃ b, (serviceLogInteraction post store u c ty).1 = Except.ok b) ∧
    (∀ e, post ⟨u, c, ty.toText⟩ = Except.error e →
      apiLogInteraction post u c ty = Except.ok none ∧
      (serviceLogInteraction post store u c ty).1 = Except.ok true) := by
  cases hp : post ⟨u, c, ty.toText⟩ with
  | ok d =>
      refine ⟨⟨some d, ?_⟩, ⟨true, ?_⟩, ?_⟩
      · simp [apiLogInteraction, hp]
      · simp [serviceLogInteraction, apiLogInteraction, hp]
      · intro e he
        exact absurd he (by simp)
  | error e =>
      refine ⟨⟨none, ?_⟩, ⟨true, ?_⟩, ?_⟩
      · simp [apiLogInteraction, hp]
      · simp [serviceLogInteraction, apiLogInteraction, hp]
      · intro e' _
        exact ⟨by simp [apiLogInteraction, hp],
          by simp [serviceLogInteraction, apiLogInteraction, hp]⟩

/-- C8 witness: a failing post on a concrete interaction. -/
theorem C8_logInteraction_swallows_witness :
    apiLogInteraction failPost "u1" "c1" InteractionType.view = Except.ok none ∧
    (serviceLogInteraction failPost [] "u1" "c1" InteractionType.view).1 =
      Except.ok true :=
  (C8_logInteraction_swallows failPost [] "u1" "c1" InteractionType.view).2.2
    "Network Error" rfl

/-- C5 counterexample: `homepage_layout` is configured with the claimed
variants and weights but is disabled, so a fresh subject is assigned no
variant at all: `getVariant` returns null, refuting "assigns every distinct
subject one of those three variants". -/
theorem C5_homepage_unassigned_cex :
    findTest TestName.HOMEPAGE_LAYOUT =
      some { name := TestName.HOMEPAGE_LAYOUT, enabled := false,
             variants := ["Standard", "LocationFirst", "PersonalizedFirst"],
             distribution := some [0.4, 0.3, 0.3] } ∧
    getVariant (newService [] draws0) TestName.HOMEPAGE_LAYOUT = none ∧
    mapFind (newService [] draws0).assignedVariants TestName.HOMEPAGE_LAYOUT = none := by
  refine ⟨rfl, by decide, by decide⟩

/-- C5 (amended): the `homepage_layout` experiment carries the claimed
variants and weights but is disabled, so no subject is ever assigned a
variant and `getVariant` always returns null; the weighted selector at
weights [0.4, 0.3, 0.3] would pick Standard for r ≤ 0.4, LocationFirst for
0.4 < r ≤ 0.7 and PersonalizedFirst for 0.7 < r < 1. -/
theorem C5_homepage_disabled_behavior :
    testEnabled TestName.HOMEPAGE_LAYOUT = false ∧
    (∀ s : ABState, getVariant s TestName.HOMEPAGE_LAYOUT = none) ∧
    (∀ r : ℚ, 0 ≤ r → r < 1 →
      chooseByDistribution ["Standard", "LocationFirst", "PersonalizedFirst"]
          [0.4, 0.3, 0.3] r =
        if r ≤ 0.4 then "Standard"
        else if r ≤ 0.7 then "LocationFirst"
        else "PersonalizedFirst") := by
  refine ⟨by decide, ?_, ?_⟩
  · intro s
    exact (disabled_noop s TestName.HOMEPAGE_LAYOUT (by decide)).1
  · intro r h0 h1
    have hr1 : r ≤ (1 : ℚ) := le_of_lt h1
    simp only [chooseByDistribution, walkWeights]
    norm_num
    split_ifs <;> simp_all

/-- C5 witness: at draw 1/2 the selector would pick LocationFirst, and the
fresh service still reports no variant. -/
theorem C5_homepage_disabled_behavior_witness :
    getVariant (newService [] draws0) TestName.HOMEPAGE_LAYOUT = none ∧
    chooseByDistribution ["Standard", "LocationFirst", "PersonalizedFirst"]
        [0.4, 0.3, 0.3] (1 / 2) = "LocationFirst" := by
  refine ⟨C5_homepage_disabled_behavior.2.1 (newService [] draws0), ?_⟩
  have h := C5_homepage_disabled_behavior.2.2 (1 / 2) (by norm_num) (by norm_num)
  rw [h]
  norm_num

end TrendSpotter
